import Mathlib

/-!
# Shallow embedding of `lemmy_migrate`

This file embeds the two source files of the `lemmy_migrate` repository,
`lemmy.py` (the `Lemmy` account client) and `lemmy_migrate.py` (the sync
driver), and proves properties of the embedded definitions.

Modelling conventions:

* Python sets are modelled as duplicate-free `List`s, mutated with
  `addIfAbsent` (the model of `set.add`).  Membership agrees with Python's;
  the list order stands in for the set's (arbitrary) enumeration order.
* The network is an oracle: every HTTP interaction is a parameter giving the
  decoded outcome of the call.  `none` stands for an exception escaping the
  call (transport error, non-2xx status raised by `raise_for_status`, or a
  JSON/`KeyError` while decoding); `some v` stands for a successful call
  whose decoded payload is `v`.
* `Lemmy._user_communities` holds Python `str`s (actor addresses added by
  `get_communities`) and Python `int`s (community ids added by `subscribe`);
  the sum type `CommRef` models this mix of value types.
* The unbounded `while` loop of `get_communities` is run with explicit fuel;
  the runner also reports whether the `while` condition became false (the
  loop genuinely exited) or the fuel merely ran out.
-/

/-- A value stored in the client's `_user_communities` Python set:
either an actor-address string (`comm["community"]["actor_id"]`, added by
`get_communities`) or a numeric community id (Python `int`, added by
`subscribe` after a 200 response). -/
inductive CommRef where
  | actor (address : String)
  | num (id : Int)
deriving DecidableEq

/-- Is this set member an actor-address string? -/
def CommRef.isActor : CommRef → Bool
  | .actor _ => true
  | .num _ => false

/-- `s.add(x)` on a Python set, modelled on a duplicate-free list: a no-op
when the element is present, otherwise appended. -/
def addIfAbsent [DecidableEq α] (l : List α) (x : α) : List α :=
  if x ∈ l then l else l ++ [x]

theorem mem_addIfAbsent_iff [DecidableEq α] {l : List α} {x y : α} :
    y ∈ addIfAbsent l x ↔ y ∈ l ∨ y = x := by
  unfold addIfAbsent
  split
  · constructor
    · exact Or.inl
    · rintro (h | rfl) <;> assumption
  · simp [or_comm]

theorem mem_addIfAbsent_of_mem [DecidableEq α] {l : List α} {x y : α}
    (h : y ∈ l) : y ∈ addIfAbsent l x :=
  mem_addIfAbsent_iff.mpr (Or.inl h)

theorem self_mem_addIfAbsent [DecidableEq α] (l : List α) (x : α) :
    x ∈ addIfAbsent l x :=
  mem_addIfAbsent_iff.mpr (Or.inr rfl)

theorem filter_addIfAbsent_of_neg [DecidableEq α] (p : α → Bool) {l : List α}
    {x : α} (hx : p x = false) : (addIfAbsent l x).filter p = l.filter p := by
  unfold addIfAbsent
  split
  · rfl
  · simp [List.filter_append, hx]

/-- `comm["community"]["actor_id"]` of every entry of one page, added into the
client's set (the `for comm in resp.json()["communities"]` loop of
`Lemmy.get_communities`). -/
def addActors (l : List CommRef) (page_comms : List String) : List CommRef :=
  page_comms.foldl (fun acc url => addIfAbsent acc (CommRef.actor url)) l

theorem mem_addActors_of_mem {l : List CommRef} {x : CommRef}
    (page_comms : List String) (h : x ∈ l) : x ∈ addActors l page_comms := by
  induction page_comms generalizing l with
  | nil => exact h
  | cons a rest ih => exact ih (mem_addIfAbsent_of_mem h)

theorem filter_addActors_num (l : List CommRef) (page_comms : List String) :
    (addActors l page_comms).filter (fun c => !c.isActor) =
      l.filter (fun c => !c.isActor) := by
  induction page_comms generalizing l with
  | nil => rfl
  | cons a rest ih =>
      rw [addActors, List.foldl_cons, ← addActors, ih,
        filter_addIfAbsent_of_neg]
      rfl

/-- The mutable state of the pagination loop of `Lemmy.get_communities`:
`page` is `payload["page"]`, `fetched` the `fetched` local, `comms` the
client's `_user_communities` set, and `calls` a ghost log of the page number
sent with each `community/list` request (the request's `limit` is the
constant 50, so logging the page determines the request). -/
structure FetchState where
  page : Nat
  fetched : Nat
  comms : List CommRef
  calls : List Nat

/-- One iteration of the `while fetched == 50` body of
`Lemmy.get_communities`.  `resp` is the outcome of `_request_it` for this
iteration: `none` models an exception (caught by the `except` clause, which
only prints — `fetched`, `payload["page"]` and the set are left unchanged);
`some page_comms` models a successful fetch whose decoded
`resp.json()["communities"]` has the given `actor_id`s, after which
`fetched` is set to the page length, the page counter advances and the
entries are added to the set. -/
def fetchStep (resp : Option (List String)) (s : FetchState) : FetchState :=
  match resp with
  | none => { s with calls := s.calls ++ [s.page] }
  | some page_comms =>
      { page := s.page + 1
        fetched := page_comms.length
        comms := addActors s.comms page_comms
        calls := s.calls ++ [s.page] }

/-- The `while fetched == 50` loop of `Lemmy.get_communities`, run with
explicit fuel.  `resp i` is the outcome of the `i`-th `community/list`
request issued (0-based, counted over the whole loop).  The returned `Bool`
is `true` iff the `while` condition became false, i.e. the Python loop
genuinely exited rather than the fuel running out. -/
def runLoop (resp : Nat → Option (List String)) :
    Nat → FetchState → FetchState × Bool
  | 0, s => (s, decide (s.fetched ≠ 50))
  | fuel + 1, s =>
      if s.fetched = 50 then runLoop resp fuel (fetchStep (resp s.calls.length) s)
      else (s, true)

/-- Entry state of `Lemmy.get_communities`: `payload["page"] = 1`,
`fetched = 50  # max limit`, and the client's current set. -/
def initFetch (comms : List CommRef) : FetchState :=
  { page := 1, fetched := 50, comms := comms, calls := [] }

namespace Lemmy

/-- `Lemmy.get_communities`: runs the pagination loop from the entry state
over the client's current set `comms` and returns the final state (whose
`comms` field is both the new `_user_communities` and the Python return
value, since the method returns the set itself) together with the
loop-exited flag. -/
def get_communities (resp : Nat → Option (List String)) (fuel : Nat)
    (comms : List CommRef) : FetchState × Bool :=
  runLoop resp fuel (initFetch comms)

/-- `Lemmy.resolve_community`: the request/decode either raises (caught by
the method's `except` clause, leaving `community_id = None`) or yields
`resp.json()["community"]["community"]["id"]`.  `resolveResp` is the oracle
for that combined outcome, so the method's result is the oracle value
itself. -/
def resolve_community (resolveResp : String → Option Int) (url : String) :
    Option Int :=
  resolveResp url

end Lemmy

/-- State threaded through `Lemmy.subscribe`: the client's
`_user_communities` set and a ghost log of the community ids sent with
`community/follow` requests, in order. -/
structure SubState where
  comms : List CommRef
  followCalls : List Int
deriving DecidableEq

namespace Lemmy

/-- One iteration of the `for url in communities` loop of `Lemmy.subscribe`.
`resolveResp` is the oracle behind `resolve_community` (`none` covers both
an unresolvable community and an exception inside `resolve_community`, which
it catches itself).  `followResp n` is the outcome of the
`community/follow` request for id `n`: `none` an exception (caught by the
loop's `except` clause), `some status` a response with that status code.
The follow request is sent only when `comm_id` is truthy (`if comm_id:`,
so Python skips both `None` and `0`); the id is added to the client's set
only on a 200 status. -/
def subscribeStep (resolveResp : String → Option Int)
    (followResp : Int → Option Nat) (st : SubState) (url : String) :
    SubState :=
  match resolve_community resolveResp url with
  | none => st
  | some n =>
      if n = 0 then st
      else
        let st' : SubState := { st with followCalls := st.followCalls ++ [n] }
        match followResp n with
        | some 200 => { st' with comms := addIfAbsent st'.comms (CommRef.num n) }
        | _ => st'

/-- `Lemmy.subscribe`: the loop over the given community references. -/
def subscribe (resolveResp : String → Option Int)
    (followResp : Int → Option Nat) (st : SubState) (urls : List String) :
    SubState :=
  urls.foldl (subscribeStep resolveResp followResp) st

end Lemmy

theorem subscribeStep_followCalls (resolveResp : String → Option Int)
    (followResp : Int → Option Nat) (st : SubState) (url : String) :
    (Lemmy.subscribeStep resolveResp followResp st url).followCalls =
      st.followCalls ++
        (match resolveResp url with
         | none => []
         | some n => if n = 0 then [] else [n]) := by
  unfold Lemmy.subscribeStep Lemmy.resolve_community
  split
  · simp
  · split
    · simp
    · split <;> simp

theorem subscribeStep_comms_mem (resolveResp : String → Option Int)
    (followResp : Int → Option Nat) (st : SubState) (url : String)
    {x : CommRef} (h : x ∈ st.comms) :
    x ∈ (Lemmy.subscribeStep resolveResp followResp st url).comms := by
  unfold Lemmy.subscribeStep Lemmy.resolve_community
  split
  · exact h
  · split
    · exact h
    · split
      · exact mem_addIfAbsent_of_mem h
      · exact h

theorem subscribeStep_comms_actors (resolveResp : String → Option Int)
    (followResp : Int → Option Nat) (st : SubState) (url : String) :
    (Lemmy.subscribeStep resolveResp followResp st url).comms.filter
        CommRef.isActor =
      st.comms.filter CommRef.isActor := by
  unfold Lemmy.subscribeStep Lemmy.resolve_community
  split
  · rfl
  · split
    · rfl
    · split
      · exact filter_addIfAbsent_of_neg _ rfl
      · rfl

/-- Python truthiness of `resolve_community`'s result, as used by
`if comm_id:`: the id provided it is neither `None` nor `0`. -/
def truthyResolve (resolveResp : String → Option Int) (url : String) :
    Option Int :=
  match resolveResp url with
  | none => none
  | some n => if n = 0 then none else some n

theorem subscribe_followCalls (resolveResp : String → Option Int)
    (followResp : Int → Option Nat) (urls : List String) (st : SubState) :
    (Lemmy.subscribe resolveResp followResp st urls).followCalls =
      st.followCalls ++ urls.filterMap (truthyResolve resolveResp) := by
  induction urls generalizing st with
  | nil => simp [Lemmy.subscribe]
  | cons u rest ih =>
      rw [Lemmy.subscribe, List.foldl_cons, ← Lemmy.subscribe, ih,
        subscribeStep_followCalls]
      rw [List.filterMap_cons]
      unfold truthyResolve
      split
      · simp
      · split <;> simp

theorem subscribe_comms_mem (resolveResp : String → Option Int)
    (followResp : Int → Option Nat) (urls : List String) (st : SubState)
    {x : CommRef} (h : x ∈ st.comms) :
    x ∈ (Lemmy.subscribe resolveResp followResp st urls).comms := by
  induction urls generalizing st with
  | nil => exact h
  | cons u rest ih =>
      exact ih _ (subscribeStep_comms_mem resolveResp followResp st u h)

theorem subscribe_comms_actors (resolveResp : String → Option Int)
    (followResp : Int → Option Nat) (urls : List String) (st : SubState) :
    (Lemmy.subscribe resolveResp followResp st urls).comms.filter
        CommRef.isActor =
      st.comms.filter CommRef.isActor := by
  induction urls generalizing st with
  | nil => rfl
  | cons u rest ih =>
      rw [Lemmy.subscribe, List.foldl_cons, ← Lemmy.subscribe, ih,
        subscribeStep_comms_actors]

/-! ## URL normalization (`Lemmy.__init__`)

`urllib.parse.urlparse` and `geturl` are modelled on character lists.
The model implements scheme splitting, netloc splitting, fragment/query
splitting and the params split of `urlparse`, exactly as CPython's
`urlsplit`/`urlparse`/`urlunsplit`/`urlunparse` do. -/

/-- Split at the first occurrence of `c`: `(before, some after)` when `c`
occurs, `(l, none)` otherwise (Python `find` + slicing / `split(c, 1)`). -/
def splitFirst (c : Char) : List Char → List Char × Option (List Char)
  | [] => ([], none)
  | x :: xs =>
      if x = c then ([], some xs)
      else
        let r := splitFirst c xs
        (x :: r.1, r.2)

theorem splitFirst_of_not_mem {c : Char} {l : List Char} (h : c ∉ l) :
    splitFirst c l = (l, none) := by
  induction l with
  | nil => rfl
  | cons x xs ih =>
      have hx : ¬x = c := fun hh => h (hh ▸ List.mem_cons_self x xs)
      have hxs : c ∉ xs := fun hh => h (List.mem_cons_of_mem x hh)
      simp [splitFirst, hx, ih hxs]

theorem mem_splitFirst_fst {c x : Char} {l : List Char}
    (h : x ∈ (splitFirst c l).1) : x ∈ l := by
  induction l with
  | nil => simp [splitFirst] at h
  | cons y ys ih =>
      by_cases hy : y = c
      · simp [splitFirst, hy] at h
      · simp only [splitFirst, if_neg hy, List.mem_cons] at h
        rcases h with h | h
        · exact h ▸ List.mem_cons_self y ys
        · exact List.mem_cons_of_mem y (ih h)

theorem not_mem_splitFirst_fst (c : Char) (l : List Char) :
    c ∉ (splitFirst c l).1 := by
  induction l with
  | nil => simp [splitFirst]
  | cons y ys ih =>
      by_cases hy : y = c
      · simp [splitFirst, hy]
      · simp only [splitFirst, if_neg hy, List.mem_cons]
        rintro (h | h)
        · exact hy h.symm
        · exact ih h

theorem mem_splitFirst_snd {c x : Char} {l b : List Char}
    (h : (splitFirst c l).2 = some b) (hx : x ∈ b) : x ∈ l := by
  induction l with
  | nil => simp [splitFirst] at h
  | cons y ys ih =>
      by_cases hy : y = c
      · simp only [splitFirst, if_pos hy] at h
        cases h
        exact List.mem_cons_of_mem y hx
      · simp only [splitFirst, if_neg hy] at h
        exact List.mem_cons_of_mem y (ih h)

/-- `_splitnetloc`'s scan: take characters until one of `delims` (the
netloc delimiters `/`, `?`, `#`) is hit; return the taken part and the
remainder (which starts with the delimiter, if any). -/
def takeUntil (delims : List Char) : List Char → List Char × List Char
  | [] => ([], [])
  | x :: xs =>
      if x ∈ delims then ([], x :: xs)
      else
        let r := takeUntil delims xs
        (x :: r.1, r.2)

theorem mem_takeUntil_fst {delims : List Char} {x : Char} {l : List Char}
    (h : x ∈ (takeUntil delims l).1) : x ∈ l ∧ x ∉ delims := by
  induction l with
  | nil => simp [takeUntil] at h
  | cons y ys ih =>
      by_cases hy : y ∈ delims
      · simp [takeUntil, hy] at h
      · simp only [takeUntil, if_neg hy, List.mem_cons] at h
        rcases h with h | h
        · exact ⟨h ▸ List.mem_cons_self y ys, h ▸ hy⟩
        · exact ⟨List.mem_cons_of_mem y (ih h).1, (ih h).2⟩

/-- Characters CPython's `urlsplit` allows in a scheme
(`scheme_chars`: letters, digits, `+`, `-`, `.`). -/
def isSchemeChar (c : Char) : Bool :=
  c.isAlphanum || c = '+' || c = '-' || c = '.'

theorem mem_takeUntil_snd {delims : List Char} {x : Char} {l : List Char}
    (h : x ∈ (takeUntil delims l).2) : x ∈ l := by
  induction l with
  | nil => simp [takeUntil] at h
  | cons y ys ih =>
      by_cases hy : y ∈ delims
      · simpa [takeUntil, hy] using h
      · simp only [takeUntil, if_neg hy] at h
        exact List.mem_cons_of_mem y (ih h)

/-- The scheme-splitting step of `urlsplit`: when a `:` occurs at a
positive index and everything before it is a scheme character, the scheme
is split off (lower-cased); otherwise the URL is left whole. -/
def splitScheme (cs : List Char) : List Char × List Char :=
  match (splitFirst ':' cs).2 with
  | some after =>
      if (splitFirst ':' cs).1.isEmpty ||
          !(splitFirst ':' cs).1.all isSchemeChar then ([], cs)
      else ((splitFirst ':' cs).1.map Char.toLower, after)
  | none => ([], cs)

theorem mem_splitScheme_snd {x : Char} {cs : List Char}
    (h : x ∈ (splitScheme cs).2) : x ∈ cs := by
  unfold splitScheme at h
  rcases h2 : (splitFirst ':' cs).2 with _ | after <;> rw [h2] at h
  · exact h
  · dsimp only at h
    split at h
    · exact h
    · exact mem_splitFirst_snd h2 h

/-- The netloc-splitting step of `urlsplit`: a netloc exists only when the
(post-scheme) URL starts with `//`; it extends to the first `/`, `?` or
`#`. -/
def splitNetloc (cs : List Char) : List Char × List Char :=
  if cs.take 2 = ['/', '/'] then takeUntil ['/', '?', '#'] (cs.drop 2)
  else ([], cs)

theorem mem_splitNetloc_snd {x : Char} {cs : List Char}
    (h : x ∈ (splitNetloc cs).2) : x ∈ cs := by
  unfold splitNetloc at h
  split at h
  · exact List.mem_of_mem_drop (mem_takeUntil_snd h)
  · exact h

/-- Split at the last `/` (`url.rfind('/')`): `(before, after)` with the
input equal to `before ++ '/' :: after` and no `/` in `after`; `([], p)`
when there is no `/`. -/
def splitLastSlash (p : List Char) : List Char × List Char :=
  match (splitFirst '/' p.reverse).2 with
  | some revBefore => (revBefore.reverse, (splitFirst '/' p.reverse).1.reverse)
  | none => ([], p)

/-- `urllib.parse._splitparams`: split `;params` off the last path
segment (the `;` is searched from the last `/` on).  Only called (by
`urlparse`) when the path contains a `;`. -/
def splitParams (p : List Char) : List Char × List Char :=
  if '/' ∈ p then
    match (splitFirst ';' (splitLastSlash p).2).2 with
    | some b =>
        ((splitLastSlash p).1 ++ '/' :: (splitFirst ';' (splitLastSlash p).2).1, b)
    | none => (p, [])
  else
    match (splitFirst ';' p).2 with
    | some b => ((splitFirst ';' p).1, b)
    | none => (p, [])

/-- The `if c in url: url, tail = url.split(c, 1)` idiom of `urlsplit`
(used for `#` and `?`): the part before the first `c` and the tail after
it (empty when `c` does not occur). -/
def splitOff (c : Char) (l : List Char) : List Char × List Char :=
  match (splitFirst c l).2 with
  | some b => ((splitFirst c l).1, b)
  | none => (l, [])

/-- The result of `urllib.parse.urlparse`: a six-component named tuple.
(`ParseResult._replace` is record update, `geturl` is `pyUrlunparse`.) -/
structure ParseResult where
  scheme : String
  netloc : String
  path : String
  params : String
  query : String
  fragment : String
deriving DecidableEq

/-- `urllib.parse.urlparse`, following CPython: split the scheme, then the
netloc (only after a literal `//`), then the fragment at the first `#`,
then the query at the first `?`, and finally—in `urlparse` proper—the
params at the `;` of the last path segment, when present. -/
def pyUrlparse (url : String) : ParseResult :=
  let rest1 := (splitScheme url.toList).2
  let rest2 := (splitNetloc rest1).2
  let rest3 := (splitOff '#' rest2).1
  let path0 := (splitOff '?' rest3).1
  { scheme := String.mk (splitScheme url.toList).1
    netloc := String.mk (splitNetloc rest1).1
    path := String.mk (if ';' ∈ path0 then (splitParams path0).1 else path0)
    params := String.mk (if ';' ∈ path0 then (splitParams path0).2 else [])
    query := String.mk (splitOff '?' rest3).2
    fragment := String.mk (splitOff '#' rest2).2 }

/-- `urllib.parse.urlunsplit`. -/
def pyUrlunsplit (scheme netloc path query fragment : String) : String :=
  let url := path
  let url :=
    if netloc ≠ "" ∨ (url ≠ "" ∧ url.take 2 = "//") then
      "//" ++ netloc ++ (if url ≠ "" ∧ url.take 1 ≠ "/" then "/" ++ url else url)
    else url
  let url := if scheme ≠ "" then scheme ++ ":" ++ url else url
  let url := if query ≠ "" then url ++ "?" ++ query else url
  if fragment ≠ "" then url ++ "#" ++ fragment else url

/-- `urllib.parse.urlunparse` = `ParseResult.geturl`: rejoin params to the
path, then `urlunsplit`. -/
def pyUrlunparse (p : ParseResult) : String :=
  let path := if p.params ≠ "" then p.path ++ ";" ++ p.params else p.path
  pyUrlunsplit p.scheme p.netloc path p.query p.fragment

namespace Lemmy

/-- The site-URL computation of `Lemmy.__init__` (lemmy.py lines 12-17):
`url_path` is the parsed netloc when non-empty, else the parsed path, and
the stored URL is
`urlparse(url_path)._replace(scheme="https", netloc=url_path, path="").geturl()`. -/
def init_site_url (url : String) : String :=
  let parsed_url := pyUrlparse url
  let url_path := if parsed_url.netloc ≠ "" then parsed_url.netloc else parsed_url.path
  pyUrlunparse
    { pyUrlparse url_path with scheme := "https", netloc := url_path, path := "" }

end Lemmy

/-- The `url_path` local of `Lemmy.__init__`. -/
def urlPathOf (url : String) : String :=
  let parsed_url := pyUrlparse url
  if parsed_url.netloc ≠ "" then parsed_url.netloc else parsed_url.path

/-! ## The account client and its operations -/

/-- Python exception classes relevant to this program.  `SystemExit`
(raised by `sys.exit`) derives `BaseException` but NOT `Exception`, so an
`except Exception` clause does not catch it. -/
inductive PyExc where
  | exception
  | systemExit (code : Nat)
deriving DecidableEq

/-- An instance of the Python class `Lemmy`: `site_url` (set once in
`__init__`), `_auth_token` and the `_user_communities` set. -/
structure Lemmy where
  site_url : String
  auth_token : Option String
  user_communities : List CommRef
deriving DecidableEq

namespace Lemmy

/-- `Lemmy(url)`: `__init__` normalizes the URL, sets `_auth_token = None`
and `_user_communities = set()`. -/
def init (url : String) : Lemmy :=
  { site_url := init_site_url url, auth_token := none, user_communities := [] }

/-- `Lemmy.login` (lemmy.py lines 21-35).  `resp` is the oracle outcome of
the login request: `some jwt` when the request succeeds and the body has a
`jwt` field, `none` when any exception is raised (bad credentials give a
non-2xx status, which `_request_it` re-raises).  On an exception, the
method prints the error and calls `sys.exit(1)`, so the caller observes a
raised `SystemExit`, not an `Exception`. -/
def login (resp : Option String) : Except PyExc String :=
  match resp with
  | some jwt => .ok jwt
  | none => .error (.systemExit 1)

end Lemmy

/-- The network oracle for the resolve and follow endpoints, fixed for a
run of operations (each `Op.getComms` carries its own page oracle). -/
structure Env where
  resolveResp : String → Option Int
  followResp : Int → Option Nat

/-- One public operation on an account client.  `getComms` carries the page
oracle of its run and the fuel bounding its unbounded `while` loop. -/
inductive Op where
  | loginOp (resp : Option String)
  | getComms (resp : Nat → Option (List String)) (fuel : Nat)
  | resolveOp (url : String)
  | subscribeOp (urls : List String)

/-- Effect of one operation on the client's state.  `login` stores the
token on success (on failure the process exits, so no further state is
observable; the state is returned unchanged).  `get_communities` replaces
the set with the loop's accumulated set (the loop only ever adds).
`resolve_community` reads nothing but the token.  `subscribe` adds the ids
of 200-status follows. -/
def applyOp (env : Env) (c : Lemmy) : Op → Lemmy
  | .loginOp resp =>
      match Lemmy.login resp with
      | .ok jwt => { c with auth_token := some jwt }
      | .error _ => c
  | .getComms resp fuel =>
      { c with user_communities :=
          (Lemmy.get_communities resp fuel c.user_communities).1.comms }
  | .resolveOp _ => c
  | .subscribeOp urls =>
      { c with user_communities :=
          (Lemmy.subscribe env.resolveResp env.followResp
            ⟨c.user_communities, []⟩ urls).comms }

/-- A sequence of operations, applied in order. -/
def applyOps (env : Env) (ops : List Op) (c : Lemmy) : Lemmy :=
  ops.foldl (applyOp env) c

/-! ## `lemmy_migrate.py` -/

/-- The observable outcome of `sync_subscriptions` (lemmy_migrate.py lines
46-68): the `src_comms` local, the `new_communities` list, and whether
`dest_acct.subscribe` was invoked. -/
structure SyncResult (α : Type) where
  src_comms : List α
  new_communities : List α
  subscribeCalled : Bool
deriving DecidableEq

/-- `sync_subscriptions`, with the two clients' `get_communities` results
supplied as oracles (`srcListing` is what `src_acct.get_communities()`
would return; it is consulted only in the `else` branch).  `from_backup`
is the third parameter; Python's `if from_backup:` is falsy both for
`None` and for an empty set.  `new_communities` is the list comprehension
`[c for c in src_comms if c not in dest_comms]`, and `subscribe` is called
iff that list is truthy (non-empty).  The element type is left abstract:
Python compares the set members whatever their type. -/
def sync_subscriptions [DecidableEq α] (srcListing destListing : List α)
    (from_backup : Option (List α)) : SyncResult α :=
  let src_comms :=
    match from_backup with
    | some l => if l.isEmpty then srcListing else l
    | none => srcListing
  let new_communities := src_comms.filter (fun c => decide (c ∉ destListing))
  { src_comms := src_comms
    new_communities := new_communities
    subscribeCalled := !new_communities.isEmpty }

/-- `write_backup` (lines 71-79): dumps `{account.site_url: list(comms)}`
where `comms = account.get_communities()`; the JSON file is modelled as
the association list it encodes. -/
def write_backup (site_url : String) (comms : List String) :
    List (String × List String) :=
  [(site_url, comms)]

/-- `read_backup` (lines 82-93): the set comprehension
`{c for k, v in data.items() for c in v}` — every value of every key,
collected into a set (set semantics = compare results up to `toFinset`). -/
def read_backup (data : List (String × List String)) : List String :=
  data.foldl (fun acc kv => acc ++ kv.2) []

/-- The per-secondary-account loop of `main` (lines 124-144).  Each entry
of `accounts` is the login-request oracle for that account.  Returned:
the indices of the accounts that reached `sync_subscriptions`, and
`some code` if the process terminated early with that exit code.
The loop's `try` wraps only `new_lemming.login(...)`; its
`except Exception` clause logs "Continuing to next account." and
`continue`s — but it never sees `Lemmy.login`'s failure, because `login`
raises `SystemExit` (per `sys.exit(1)`), which is not an `Exception`, so
it propagates and kills the process. -/
def main_account_loop : List (Option String) → Nat → List Nat × Option Nat
  | [], _ => ([], none)
  | resp :: rest, idx =>
      match Lemmy.login resp with
      | .ok _ =>
          let r := main_account_loop rest (idx + 1)
          (idx :: r.1, r.2)
      | .error .exception => main_account_loop rest (idx + 1)
      | .error (.systemExit code) => ([], some code)

/-! ## Sync against a recording server (for the superset/idempotence claim)

The destination account is modelled with both sides of the wire: the
client object (its `_user_communities` set) and the server's record of the
account's subscriptions (a set of actor addresses).  The server model is
the one the claim assumes: `resolveOf` resolves actor addresses to ids,
`actorOf` is the server's id table, follow calls always succeed with
status 200 and are recorded, and a later `get_communities` returns the
recorded subscriptions (pagination completing, per `get_communities`'s
exhaustive-pagination behaviour, is abstracted into a single fold). -/

/-- One account as seen from both ends: the client's set and the server's
subscription record. -/
structure DestAccount where
  client : List CommRef
  server : List String
deriving DecidableEq

/-- Server effect of the follow calls issued by a `subscribe` run: each
followed id is recorded as a subscription to the community with that id. -/
def followServer (actorOf : Int → Option String) (server : List String)
    (calls : List Int) : List String :=
  calls.foldl
    (fun ss n =>
      match actorOf n with
      | some a => addIfAbsent ss a
      | none => ss)
    server

/-- One `sync_subscriptions` call against the recording server, with the
source set given directly (`src_comms`).  The destination listing is the
client set grown by the server's record (the accumulate-and-return
behaviour of `get_communities`); the deficit is line 64's comprehension;
`subscribe` runs only when the deficit is non-empty, with every follow
returning status 200.  Returns the new destination state and the follow
calls issued. -/
def syncRound (resolveOf : String → Option Int) (actorOf : Int → Option String)
    (src : List String) (d : DestAccount) : DestAccount × List Int :=
  let destComms := addActors d.client d.server
  let deficit := src.filter (fun a => decide (CommRef.actor a ∉ destComms))
  if deficit.isEmpty then ({ d with client := destComms }, [])
  else
    let st := Lemmy.subscribe resolveOf (fun _ => some 200) ⟨destComms, []⟩ deficit
    ({ client := st.comms, server := followServer actorOf d.server st.followCalls },
      st.followCalls)

/-! ## Concrete fixtures used in individual claims -/

/-- Page oracle where the first `community/list` request raises and every
later one succeeds with an empty page. -/
def respFirstFails : Nat → Option (List String) :=
  fun i => if i = 0 then none else some []

/-- A server whose pages 1, 2, 3 hold 50, 50, 30 distinct communities. -/
def pages503 : Nat → List String :=
  fun i =>
    if i = 1 then (List.range' 0 50).map (fun n => "c" ++ toString n)
    else if i = 2 then (List.range' 50 50).map (fun n => "c" ++ toString n)
    else if i = 3 then (List.range' 100 30).map (fun n => "c" ++ toString n)
    else []

/-- A server with no subscriptions: every page is empty. -/
def pagesEmpty : Nat → List String := fun _ => []

/-- Resolve oracle for the C3 counterexample: "x" resolves to id 5. -/
def resolveX5 : Env :=
  { resolveResp := fun u => if u = "x" then some 5 else none
    followResp := fun _ => some 200 }

/-- Resolve oracle for the C6 counterexample: "a" resolves to the id 0,
"b" fails to resolve, "c" resolves to 7. -/
def resolveZero : String → Option Int :=
  fun u => if u = "a" then some 0 else if u = "c" then some 7 else none

/-- Resolve oracle for the C6 witness: "a" resolves to 5, "b" fails,
"c" resolves to 7. -/
def resolveAC : String → Option Int :=
  fun u => if u = "a" then some 5 else if u = "c" then some 7 else none

/-- Resolve table of the C7 witness server: only "x", with id 1. -/
def resolveOnlyX : String → Option Int := fun a => if a = "x" then some 1 else none

/-- Id table of the C7 witness server: id 1 is "x". -/
def actorOnlyX : Int → Option String := fun n => if n = 1 then some "x" else none

/-! # Theorems -/

/-! ## C1 — login failure on a secondary account -/

/-- C1 (code_bug evaluation): with two secondary accounts whose login
requests fail resp. succeed, the run terminates with exit code 1 during
the first account and the second account is never processed.  The claim
(and `main`'s own `except Exception` handler, which logs "Continuing to
next account.") says account 2 should be processed; but `Lemmy.login`
calls `sys.exit(1)` itself, and the resulting `SystemExit` is not an
`Exception`, so the handler never runs. -/
theorem c1_secondary_login_failure_kills_run :
    main_account_loop [none, some "jwt2"] 0 = ([], some 1) ∧
      1 ∉ (main_account_loop [none, some "jwt2"] 0).1 := by
  constructor
  · rfl
  · decide

/-! ## C2 — behaviour of a failed page fetch -/

/-- C2 (counterexample): the claim says a failed page fetch is treated as
"zero items this page" and the loop terminates after that page without
re-fetching — so with the first fetch failing the loop would stop after
one request for page 1.  In the code the `except` clause leaves `fetched`
and `payload["page"]` unchanged, so the loop issues a second request for
the same page 1 (here succeeding with zero items): two fetches of page 1,
not one. -/
theorem c2_counterexample :
    (Lemmy.get_communities respFirstFails 5 []).1.calls = [1, 1] ∧
      (Lemmy.get_communities respFirstFails 5 []).2 = true ∧
      ([1, 1] : List Nat) ≠ [1] := by
  refine ⟨rfl, rfl, ?_⟩
  decide

/-- C2 (amended): a failure while fetching a page is caught but leaves the
item counter, the page number and the set unchanged, so the loop simply
re-issues the request for the same page; with a persistently failing page
the loop never terminates (for every amount of fuel, the `while` condition
is still true). -/
theorem c2_failed_fetch_retries_same_page :
    (∀ s : FetchState,
        (fetchStep none s).page = s.page ∧
        (fetchStep none s).fetched = s.fetched ∧
        (fetchStep none s).comms = s.comms ∧
        (fetchStep none s).calls = s.calls ++ [s.page]) ∧
    (∀ (fuel : Nat) (s : FetchState), s.fetched = 50 →
        (runLoop (fun _ => none) fuel s).2 = false) := by
  constructor
  · exact fun s => ⟨rfl, rfl, rfl, rfl⟩
  · intro fuel
    induction fuel with
    | zero =>
        intro s h
        simp [runLoop, h]
    | succ n ih =>
        intro s h
        rw [runLoop, if_pos h]
        exact ih _ h

/-- C2 witness: the amended theorem applied to the empty-client start
state with all fetches failing. -/
theorem c2_witness :
    (initFetch []).fetched = 50 ∧
      (runLoop (fun _ => none) 7 (initFetch [])).2 = false :=
  ⟨rfl, c2_failed_fetch_retries_same_page.2 7 (initFetch []) rfl⟩

/-! ## C8 — backup round-trip -/

/-- C8: exporting any subscription set to a backup file and re-importing
yields the same set (the import reads every value of every key; the export
writes a single key, the site URL, with the whole set as its value); in
particular the spec's concrete instance round-trips exactly. -/
theorem c8_backup_roundtrip :
    (∀ (site : String) (comms : List String),
        (read_backup (write_backup site comms)).toFinset = comms.toFinset) ∧
      read_backup (write_backup "https://a" ["https://a/c/x", "https://a/c/y"]) =
        ["https://a/c/x", "https://a/c/y"] := by
  constructor
  · intro site comms
    rfl
  · rfl

/-! ## C5 — source-set selection and the deficit -/

/-- C5 (counterexample): the claim says a provided override set is used
verbatim, so with override `set()` (empty), source listing `{"x"}` and
destination `{}` the deficit would be empty and `subscribe` would not be
called.  In the code `if from_backup:` is falsy for an empty set, so the
live listing `["x"]` is used instead: the deficit is `["x"]` and
`subscribe` is called. -/
theorem c5_counterexample :
    sync_subscriptions ["x"] ([] : List String) (some []) =
        { src_comms := ["x"], new_communities := ["x"], subscribeCalled := true } ∧
      (["x"] : List String) ≠ [] := by
  refine ⟨rfl, ?_⟩
  decide

/-- C5 (amended): the override is used verbatim when provided AND
non-empty (Python truthiness: a provided empty override is ignored and the
source client's listing is used, as when no override is provided); the
deficit is exactly the source set minus the destination set, enumerated in
the source's enumeration order (a sublist of the used source sequence);
and `subscribe` is invoked iff the deficit is non-empty. -/
theorem c5_sync_deficit {α : Type} [DecidableEq α]
    (srcListing destListing : List α) (from_backup : Option (List α)) :
    (from_backup = none →
        (sync_subscriptions srcListing destListing from_backup).src_comms =
          srcListing) ∧
    (from_backup = some [] →
        (sync_subscriptions srcListing destListing from_backup).src_comms =
          srcListing) ∧
    (∀ l, from_backup = some l → l ≠ [] →
        (sync_subscriptions srcListing destListing from_backup).src_comms = l) ∧
    (∀ x, x ∈ (sync_subscriptions srcListing destListing from_backup).new_communities ↔
        x ∈ (sync_subscriptions srcListing destListing from_backup).src_comms ∧
          x ∉ destListing) ∧
    List.Sublist
      (sync_subscriptions srcListing destListing from_backup).new_communities
      (sync_subscriptions srcListing destListing from_backup).src_comms ∧
    ((sync_subscriptions srcListing destListing from_backup).subscribeCalled = true ↔
        (sync_subscriptions srcListing destListing from_backup).new_communities ≠ []) := by
  refine ⟨?_, ?_, ?_, ?_, ?_, ?_⟩
  · rintro rfl
    rfl
  · rintro rfl
    rfl
  · rintro l rfl hne
    simp [sync_subscriptions, List.isEmpty_iff, hne]
  · intro x
    simp [sync_subscriptions, List.mem_filter]
  · exact List.filter_sublist _
  · simp [sync_subscriptions, List.isEmpty_iff]

/-- C5 witness: the amended theorem applied to a non-empty override. -/
theorem c5_witness :
    (sync_subscriptions ["x"] ([] : List String) (some ["y"])).src_comms = ["y"] :=
  (c5_sync_deficit ["x"] [] (some ["y"])).2.2.1 ["y"] rfl (by decide)

/-! ## C6 — per-reference isolation in `subscribe` -/

/-- C6 (counterexample): take the 3-element list `["a", "b", "c"]` where
the 2nd reference fails to resolve, "a" resolves (successfully) to the
numeric id 0 and "c" to 7, and every follow request succeeds.  The claim
says exactly 2 follow calls are issued (for elements 1 and 3); the code
issues only one (for "c"), because `if comm_id:` is falsy for the id 0,
so element 1 is skipped even though its resolution did not fail. -/
theorem c6_counterexample :
    (Lemmy.subscribe resolveZero (fun _ => some 200)
          ⟨[], []⟩ ["a", "b", "c"]).followCalls = [7] ∧
      resolveZero "b" = none ∧
      ([7] : List Int).length ≠ 2 := by
  refine ⟨rfl, rfl, ?_⟩
  decide

/-- C6 (amended): a reference whose resolution fails (yields `None`)
produces no follow call and no state change, and processing continues
with the next reference; and for a 3-element list whose 2nd reference
fails to resolve while the 1st and 3rd resolve to NONZERO ids, exactly the
two follow calls for elements 1 and 3 are issued (a reference resolving to
the id 0 is skipped by `if comm_id:` without a follow call).  No exception
escapes `subscribe`: every failure outcome (`none` from the oracles) is
absorbed, as the totality of the embedding reflects. -/
theorem c6_resolution_isolation :
    (∀ (rr : String → Option Int) (fr : Int → Option Nat) (st : SubState)
        (urls1 urls2 : List String) (r : String), rr r = none →
        Lemmy.subscribe rr fr st (urls1 ++ r :: urls2) =
          Lemmy.subscribe rr fr st (urls1 ++ urls2)) ∧
    (∀ (rr : String → Option Int) (fr : Int → Option Nat) (c0 : List CommRef)
        (r1 r2 r3 : String) (n1 n3 : Int),
        rr r1 = some n1 → n1 ≠ 0 → rr r2 = none → rr r3 = some n3 → n3 ≠ 0 →
        (Lemmy.subscribe rr fr ⟨c0, []⟩ [r1, r2, r3]).followCalls = [n1, n3]) := by
  constructor
  · intro rr fr st urls1 urls2 r h
    unfold Lemmy.subscribe
    rw [List.foldl_append, List.foldl_cons, List.foldl_append]
    congr 1
    unfold Lemmy.subscribeStep Lemmy.resolve_community
    rw [h]
  · intro rr fr c0 r1 r2 r3 n1 n3 h1 h1z h2 h3 h3z
    rw [subscribe_followCalls]
    simp [truthyResolve, h1, h2, h3, h1z, h3z]

/-- C6 witness: the amended instance applied to `["a", "b", "c"]` with
"a" resolving to 5, "b" failing and "c" resolving to 7. -/
theorem c6_witness :
    (Lemmy.subscribe resolveAC (fun _ => some 200)
        ⟨[], []⟩ ["a", "b", "c"]).followCalls = [(5 : Int), 7] :=
  c6_resolution_isolation.2 resolveAC (fun _ => some 200) [] "a" "b" "c" 5 7
    rfl (by decide) rfl rfl (by decide)

/-! ## Lemmas about the pagination loop and the operation machine -/

theorem runLoop_comms_mem (resp : Nat → Option (List String)) :
    ∀ (fuel : Nat) (s : FetchState) {x : CommRef}, x ∈ s.comms →
      x ∈ (runLoop resp fuel s).1.comms := by
  intro fuel
  induction fuel with
  | zero =>
      intro s x h
      exact h
  | succ n ih =>
      intro s x h
      rw [runLoop]
      split
      · refine ih _ ?_
        rcases hr : resp s.calls.length with _ | page
        · exact h
        · exact mem_addActors_of_mem page h
      · exact h

theorem runLoop_comms_nums (resp : Nat → Option (List String)) :
    ∀ (fuel : Nat) (s : FetchState),
      (runLoop resp fuel s).1.comms.filter (fun x => !x.isActor) =
        s.comms.filter (fun x => !x.isActor) := by
  intro fuel
  induction fuel with
  | zero => exact fun s => rfl
  | succ n ih =>
      intro s
      rw [runLoop]
      split
      · rw [ih]
        rcases hr : resp s.calls.length with _ | page
        · rfl
        · exact filter_addActors_num s.comms page
      · rfl

theorem applyOp_comms_mem (env : Env) (c : Lemmy) (op : Op) {x : CommRef}
    (h : x ∈ c.user_communities) : x ∈ (applyOp env c op).user_communities := by
  cases op with
  | loginOp resp => cases resp <;> exact h
  | getComms resp fuel => exact runLoop_comms_mem resp fuel _ h
  | resolveOp url => exact h
  | subscribeOp urls => exact subscribe_comms_mem _ _ _ _ h

theorem applyOp_site_url (env : Env) (c : Lemmy) (op : Op) :
    (applyOp env c op).site_url = c.site_url := by
  cases op with
  | loginOp resp => cases resp <;> rfl
  | getComms resp fuel => rfl
  | resolveOp url => rfl
  | subscribeOp urls => rfl

/-! ## Pagination under an all-successful server -/

theorem fetchStep_some (page_comms : List String) (s : FetchState) :
    fetchStep (some page_comms) s =
      { page := s.page + 1, fetched := page_comms.length,
        comms := addActors s.comms page_comms, calls := s.calls ++ [s.page] } := rfl

theorem runLoop_exits_of_ne (resp : Nat → Option (List String)) {s : FetchState}
    (h : s.fetched ≠ 50) (fuel : Nat) : runLoop resp fuel s = (s, true) := by
  cases fuel with
  | zero => simp [runLoop, h]
  | succ n => simp [runLoop, h]

theorem runLoop_pages_calls (pages : Nat → List String) :
    ∀ (k fuel : Nat) (s : FetchState),
      s.fetched = 50 → s.page = s.calls.length + 1 →
      (∀ i, s.page ≤ i → i < s.page + k → (pages i).length = 50) →
      (pages (s.page + k)).length < 50 → k + 1 ≤ fuel →
      (runLoop (fun n => some (pages (n + 1))) fuel s).1.calls =
          s.calls ++ List.range' s.page (k + 1) ∧
        (runLoop (fun n => some (pages (n + 1))) fuel s).2 = true := by
  intro k
  induction k with
  | zero =>
      intro fuel s h50 hpage hfull hlast hfuel
      obtain ⟨f, rfl⟩ : ∃ f, fuel = f + 1 := ⟨fuel - 1, by omega⟩
      rw [runLoop, if_pos h50, ← hpage, fetchStep_some]
      have hlast' : (pages s.page).length < 50 := by
        have h0 : s.page + 0 = s.page := rfl
        rw [h0] at hlast
        exact hlast
      have hne : (pages s.page).length ≠ 50 := by omega
      rw [runLoop_exits_of_ne _ hne f]
      exact ⟨by rw [List.range'_one], rfl⟩
  | succ k ih =>
      intro fuel s h50 hpage hfull hlast hfuel
      obtain ⟨f, rfl⟩ : ∃ f, fuel = f + 1 := ⟨fuel - 1, by omega⟩
      rw [runLoop, if_pos h50, ← hpage, fetchStep_some]
      have hfifty : (pages s.page).length = 50 := hfull s.page (le_refl _) (by omega)
      have hfull' : ∀ i, s.page + 1 ≤ i → i < s.page + 1 + k → (pages i).length = 50 :=
        fun i hi1 hi2 => hfull i (by omega) (by omega)
      have hlast' : (pages (s.page + 1 + k)).length < 50 := by
        have he : s.page + 1 + k = s.page + (k + 1) := by omega
        rw [he]
        exact hlast
      have hpage' : s.page + 1 = (s.calls ++ [s.page]).length + 1 := by
        simp [hpage]
      obtain ⟨hc, hb⟩ := ih f
        { page := s.page + 1, fetched := (pages s.page).length,
          comms := addActors s.comms (pages s.page), calls := s.calls ++ [s.page] }
        hfifty hpage' hfull' hlast' (by omega)
      refine ⟨?_, hb⟩
      rw [hc]
      show s.calls ++ [s.page] ++ List.range' (s.page + 1) (k + 1) =
          s.calls ++ List.range' s.page (k + 1 + 1)
      rw [List.range'_succ s.page (k + 1) 1, List.append_assoc,
        List.singleton_append]

/-! ## C4 — exhaustive pagination -/

set_option maxRecDepth 10000 in
/-- C4: against a server whose pages hold 50, 50 and 30 distinct
communities, a fresh client performs exactly 3 fetches, of pages 1, 2, 3
(each with the constant limit 50), and ends with a 130-element set;
against a server returning 0 items on the first page it performs exactly
1 fetch and ends with the empty set; and in general, when pages 1..k are
full (50 items) and page k+1 is short, the loop fetches exactly pages
1..k+1 and exits. -/
theorem c4_pagination :
    ((Lemmy.get_communities (fun n => some (pages503 (n + 1))) 5 []).1.calls =
          [1, 2, 3] ∧
        (Lemmy.get_communities (fun n => some (pages503 (n + 1))) 5
            []).1.comms.length = 130 ∧
        (Lemmy.get_communities (fun n => some (pages503 (n + 1))) 5 []).2 = true) ∧
    ((Lemmy.get_communities (fun n => some (pagesEmpty (n + 1))) 5 []).1.calls =
          [1] ∧
        (Lemmy.get_communities (fun n => some (pagesEmpty (n + 1))) 5
            []).1.comms = [] ∧
        (Lemmy.get_communities (fun n => some (pagesEmpty (n + 1))) 5 []).2 = true) ∧
    (∀ (pages : Nat → List String) (k fuel : Nat),
        (∀ i, 1 ≤ i → i ≤ k → (pages i).length = 50) →
        (pages (k + 1)).length < 50 → k + 1 ≤ fuel →
        (Lemmy.get_communities (fun n => some (pages (n + 1))) fuel []).1.calls =
            List.range' 1 (k + 1) ∧
          (Lemmy.get_communities (fun n => some (pages (n + 1))) fuel []).2 =
            true) := by
  refine ⟨⟨?_, ?_, ?_⟩, ⟨?_, ?_, ?_⟩, ?_⟩
  · decide
  · decide
  · decide
  · decide
  · decide
  · decide
  · intro pages k fuel hfull hlast hfuel
    have hfull' : ∀ i, (1 : Nat) ≤ i → i < 1 + k → (pages i).length = 50 :=
      fun i h1 h2 => hfull i h1 (by omega)
    have hlast' : (pages (1 + k)).length < 50 := by
      have he : 1 + k = k + 1 := Nat.add_comm 1 k
      rw [he]
      exact hlast
    obtain ⟨hc, hb⟩ := runLoop_pages_calls pages k fuel
      { page := 1, fetched := 50, comms := [], calls := [] }
      rfl rfl hfull' hlast' hfuel
    exact ⟨by rw [Lemmy.get_communities, initFetch, hc]; rfl, hb⟩

/-- C4 witness: the general conjunct applied to the all-empty server with
`k = 0`. -/
theorem c4_witness :
    (Lemmy.get_communities (fun n => some (pagesEmpty (n + 1))) 5 []).1.calls =
        List.range' 1 1 ∧
      (Lemmy.get_communities (fun n => some (pagesEmpty (n + 1))) 5 []).2 = true :=
  c4_pagination.2.2 pagesEmpty 0 5
    (fun i h1 h2 => absurd (h1.trans h2) (by decide)) (by decide) (by decide)

/-! ## C3 — which operations store numeric ids -/

/-- C3 (counterexample): a state reachable by one `subscribe` on a fresh
client, where "x" resolves to id 5 and the follow returns 200: the stored
set is `{5}` — a numeric id, not an actor-address identifier.  This
refutes the claim that the subscription set contains only
actor-address-form identifiers and that resolved numeric ids are never
stored: line 81 (`self._user_communities.add(comm_id)`) stores them. -/
theorem c3_counterexample :
    (applyOps resolveX5 [Op.subscribeOp ["x"]]
          (Lemmy.init "https://a")).user_communities = [CommRef.num 5] ∧
      CommRef.isActor (CommRef.num 5) = false := by
  exact ⟨rfl, rfl⟩

/-- C3 (amended): numeric ids enter the set only through `subscribe`
(on a 200-status follow of a resolved id); the listing operation never
stores numeric ids (it adds only actor-address identifiers, leaving the
numeric members untouched), and `resolve_community` alone never modifies
the client at all — resolution is transient except for the follow
bookkeeping of `subscribe`. -/
theorem c3_numeric_ids_only_from_subscribe :
    (∀ (env : Env) (c : Lemmy) (resp : Nat → Option (List String)) (fuel : Nat),
        (applyOp env c (Op.getComms resp fuel)).user_communities.filter
            (fun x => !x.isActor) =
          c.user_communities.filter (fun x => !x.isActor)) ∧
    (∀ (env : Env) (c : Lemmy) (urls : List String),
        (applyOp env c (Op.subscribeOp urls)).user_communities.filter
            CommRef.isActor =
          c.user_communities.filter CommRef.isActor) ∧
    (∀ (env : Env) (c : Lemmy) (url : String),
        applyOp env c (Op.resolveOp url) = c) := by
  refine ⟨?_, ?_, ?_⟩
  · intro env c resp fuel
    exact runLoop_comms_nums resp fuel (initFetch c.user_communities)
  · intro env c urls
    exact subscribe_comms_actors env.resolveResp env.followResp urls _
  · intro env c url
    rfl

/-! ## Lemmas about the URL model and C9 -/

theorem not_mem_of_splitFirst_none {c : Char} {l : List Char}
    (h : (splitFirst c l).2 = none) : c ∉ l := by
  induction l with
  | nil => simp
  | cons y ys ih =>
      by_cases hy : y = c
      · simp [splitFirst, hy] at h
      · simp only [splitFirst, if_neg hy] at h
        intro hmem
        rcases List.mem_cons.mp hmem with heq | hmem2
        · exact hy heq.symm
        · exact ih h hmem2

theorem splitOff_of_not_mem {c : Char} {l : List Char} (h : c ∉ l) :
    splitOff c l = (l, []) := by
  unfold splitOff
  rw [splitFirst_of_not_mem h]

theorem not_mem_splitOff_fst (c : Char) (l : List Char) :
    c ∉ (splitOff c l).1 := by
  unfold splitOff
  rcases hm : (splitFirst c l).2 with _ | b <;> simp only [hm]
  · exact not_mem_of_splitFirst_none hm
  · exact not_mem_splitFirst_fst c l

theorem mem_splitOff_fst {c x : Char} {l : List Char}
    (h : x ∈ (splitOff c l).1) : x ∈ l := by
  unfold splitOff at h
  rcases hm : (splitFirst c l).2 with _ | b <;> rw [hm] at h
  · exact h
  · exact mem_splitFirst_fst h

theorem mem_splitLastSlash_fst {x : Char} {p : List Char}
    (h : x ∈ (splitLastSlash p).1) : x ∈ p := by
  unfold splitLastSlash at h
  rcases hm : (splitFirst '/' p.reverse).2 with _ | revBefore <;> rw [hm] at h
  · cases h
  · exact List.mem_reverse.mp
      (mem_splitFirst_snd hm (List.mem_reverse.mp h))

theorem mem_splitLastSlash_snd {x : Char} {p : List Char}
    (h : x ∈ (splitLastSlash p).2) : x ∈ p := by
  unfold splitLastSlash at h
  rcases hm : (splitFirst '/' p.reverse).2 with _ | revBefore <;> rw [hm] at h
  · exact h
  · exact List.mem_reverse.mp (mem_splitFirst_fst (List.mem_reverse.mp h))

theorem mem_splitParams_fst {x : Char} {p : List Char}
    (h : x ∈ (splitParams p).1) : x ∈ p := by
  unfold splitParams at h
  split at h
  · rename_i hslash
    rcases hm : (splitFirst ';' (splitLastSlash p).2).2 with _ | b <;> rw [hm] at h
    · exact h
    · rcases List.mem_append.mp h with h1 | h1
      · exact mem_splitLastSlash_fst h1
      · rcases List.mem_cons.mp h1 with heq | h2
        · exact heq ▸ hslash
        · exact mem_splitLastSlash_snd (mem_splitFirst_fst h2)
  · rcases hm : (splitFirst ';' p).2 with _ | b <;> rw [hm] at h
    · exact h
    · exact mem_splitFirst_fst h

theorem mem_splitNetloc_fst {x : Char} {cs : List Char}
    (h : x ∈ (splitNetloc cs).1) : x ∉ (['/', '?', '#'] : List Char) := by
  unfold splitNetloc at h
  split at h
  · exact (mem_takeUntil_fst h).2
  · cases h

theorem mem_parse_path {x : Char} {url : String}
    (h : x ∈ (pyUrlparse url).path.toList) : x ≠ '?' ∧ x ≠ '#' := by
  have hpath0 : x ∈ (splitOff '?' (splitOff '#'
      (splitNetloc (splitScheme url.toList).2).2).1).1 := by
    simp only [pyUrlparse] at h
    split at h
    · exact mem_splitParams_fst h
    · exact h
  constructor
  · intro hx
    exact not_mem_splitOff_fst '?' _ (hx ▸ hpath0)
  · intro hx
    exact not_mem_splitOff_fst '#' _ (hx ▸ mem_splitOff_fst hpath0)

theorem urlPathOf_no_query_fragment (url : String) :
    ('?' : Char) ∉ (urlPathOf url).toList ∧
      ('#' : Char) ∉ (urlPathOf url).toList := by
  rw [show urlPathOf url = (if (pyUrlparse url).netloc ≠ "" then
    (pyUrlparse url).netloc else (pyUrlparse url).path) from rfl]
  split
  · constructor <;> intro hx
    · have hx' : ('?' : Char) ∈ (splitNetloc (splitScheme url.toList).2).1 := hx
      exact mem_splitNetloc_fst hx' (by decide)
    · have hx' : ('#' : Char) ∈ (splitNetloc (splitScheme url.toList).2).1 := hx
      exact mem_splitNetloc_fst hx' (by decide)
  · constructor <;> intro hx
    · exact (mem_parse_path hx).1 rfl
    · exact (mem_parse_path hx).2 rfl

theorem pyUrlparse_clean {u : String} (hq : ('?' : Char) ∉ u.toList)
    (hh : ('#' : Char) ∉ u.toList) (hs : (';' : Char) ∉ u.toList) :
    (pyUrlparse u).query = "" ∧ (pyUrlparse u).fragment = "" ∧
      (pyUrlparse u).params = "" := by
  have hsub : ∀ x : Char, x ∈ (splitNetloc (splitScheme u.toList).2).2 →
      x ∈ u.toList :=
    fun x hx => mem_splitScheme_snd (mem_splitNetloc_snd hx)
  have hh2 : ('#' : Char) ∉ (splitNetloc (splitScheme u.toList).2).2 :=
    fun hx => hh (hsub _ hx)
  have hq2 : ('?' : Char) ∉ (splitNetloc (splitScheme u.toList).2).2 :=
    fun hx => hq (hsub _ hx)
  have hs2 : (';' : Char) ∉ (splitNetloc (splitScheme u.toList).2).2 :=
    fun hx => hs (hsub _ hx)
  have e1 : splitOff '#' (splitNetloc (splitScheme u.toList).2).2 =
      ((splitNetloc (splitScheme u.toList).2).2, []) := splitOff_of_not_mem hh2
  have e2 : splitOff '?' (splitNetloc (splitScheme u.toList).2).2 =
      ((splitNetloc (splitScheme u.toList).2).2, []) := splitOff_of_not_mem hq2
  refine ⟨?_, ?_, ?_⟩
  · show String.mk (splitOff '?' (splitOff '#'
        (splitNetloc (splitScheme u.toList).2).2).1).2 = ""
    rw [e1]
    show String.mk (splitOff '?' (splitNetloc (splitScheme u.toList).2).2).2 = ""
    rw [e2]
  · show String.mk (splitOff '#'
        (splitNetloc (splitScheme u.toList).2).2).2 = ""
    rw [e1]
  · show String.mk (if ';' ∈ (splitOff '?' (splitOff '#'
        (splitNetloc (splitScheme u.toList).2).2).1).1
      then (splitParams (splitOff '?' (splitOff '#'
        (splitNetloc (splitScheme u.toList).2).2).1).1).2 else []) = ""
    rw [e1, e2]
    show String.mk (if ';' ∈ (splitNetloc (splitScheme u.toList).2).2
      then (splitParams (splitNetloc (splitScheme u.toList).2).2).2 else []) = ""
    rw [if_neg hs2]

theorem pyUrlunparse_replace (p : ParseResult) (netloc : String)
    (hq : p.query = "") (hf : p.fragment = "") (hpar : p.params = "")
    (hn : netloc ≠ "") :
    pyUrlunparse { p with scheme := "https", netloc := netloc, path := "" } =
      "https://" ++ netloc := by
  unfold pyUrlunparse pyUrlunsplit
  dsimp only
  rw [hq, hf, hpar]
  rw [if_pos (Or.inl hn)]
  show ("https" ++ ":" ++ ("//" ++ netloc ++ "") : String) = "https://" ++ netloc
  rw [String.append_empty, ← String.append_assoc]
  rfl

/-- C9 (counterexample): for the input `"lemmy.ml/foo"` (a URL without an
explicit scheme), the stored site URL is `"https://lemmy.ml/foo"`: the
whole path lands in the netloc position and its `/foo` segment is NOT
stripped, contradicting "only scheme and host retained — any path ...
stripped" for every input. -/
theorem c9_counterexample :
    Lemmy.init_site_url "lemmy.ml/foo" = "https://lemmy.ml/foo" ∧
      ('/' : Char) ∈ "https://lemmy.ml/foo".toList.drop 8 := by
  constructor
  · rfl
  · decide

/-- C9 (amended): the stored site URL is always
`"https://" ++ url_path`, where `url_path` is the input's netloc when the
input has one (in which case path and query really are stripped and the
scheme forced to https) and otherwise the input's path component — which
may itself contain `/` segments, so path segments of scheme-less inputs
are retained inside the host position.  (The equation needs `url_path`
non-empty — for an empty input the result is `"https:"` — and free of
`;`, since a `;` in the netloc re-enters params handling.)  The stored
site URL is never modified by any subsequent operation. -/
theorem c9_site_url_normalized :
    (∀ url : String, urlPathOf url ≠ "" → (';' : Char) ∉ (urlPathOf url).toList →
        Lemmy.init_site_url url = "https://" ++ urlPathOf url) ∧
      (∀ (env : Env) (c : Lemmy) (op : Op),
        (applyOp env c op).site_url = c.site_url) := by
  constructor
  · intro url hne hsemi
    obtain ⟨hq, hh⟩ := urlPathOf_no_query_fragment url
    obtain ⟨hquery, hfrag, hparams⟩ := pyUrlparse_clean hq hh hsemi
    have hinit : Lemmy.init_site_url url =
        pyUrlunparse { pyUrlparse (urlPathOf url) with
          scheme := "https", netloc := urlPathOf url, path := "" } := rfl
    rw [hinit]
    exact pyUrlunparse_replace _ _ hquery hfrag hparams hne
  · exact applyOp_site_url

/-- C9 witness: the amended equation applied to
`"https://lemmy.ml/foo?x=1"`, whose netloc is `"lemmy.ml"`: the stored
URL is `"https://lemmy.ml"`, with path and query stripped. -/
theorem c9_witness :
    urlPathOf "https://lemmy.ml/foo?x=1" ≠ "" ∧
      (';' : Char) ∉ (urlPathOf "https://lemmy.ml/foo?x=1").toList ∧
      Lemmy.init_site_url "https://lemmy.ml/foo?x=1" =
        "https://" ++ urlPathOf "https://lemmy.ml/foo?x=1" :=
  ⟨by decide, by decide,
    c9_site_url_normalized.1 "https://lemmy.ml/foo?x=1" (by decide) (by decide)⟩

/-! ## Lemmas for sync against the recording server -/

theorem actor_mem_addActors_iff {a : String} :
    ∀ (server : List String) (l : List CommRef),
      CommRef.actor a ∈ addActors l server ↔ CommRef.actor a ∈ l ∨ a ∈ server := by
  intro server
  induction server with
  | nil =>
      intro l
      simp [addActors]
  | cons s rest ih =>
      intro l
      rw [addActors, List.foldl_cons, ← addActors, ih, mem_addIfAbsent_iff]
      simp [CommRef.actor.injEq, or_assoc]

theorem mem_followServer_of_mem (ao : Int → Option String) (calls : List Int) :
    ∀ (server : List String) {a : String}, a ∈ server →
      a ∈ followServer ao server calls := by
  induction calls with
  | nil =>
      intro server a h
      exact h
  | cons n rest ih =>
      intro server a h
      show a ∈ followServer ao
        (match ao n with
         | some x => addIfAbsent server x
         | none => server) rest
      refine ih _ ?_
      rcases hn : ao n with _ | x <;> simp only [hn]
      · exact h
      · exact mem_addIfAbsent_of_mem h

theorem mem_followServer_of_call (ao : Int → Option String) {n : Int} {a : String}
    (ha : ao n = some a) :
    ∀ (calls : List Int) (server : List String), n ∈ calls →
      a ∈ followServer ao server calls := by
  intro calls
  induction calls with
  | nil =>
      intro server h
      cases h
  | cons m rest ih =>
      intro server h
      rcases List.mem_cons.mp h with heq | hmem
      · subst heq
        show a ∈ followServer ao
          (match ao n with
           | some x => addIfAbsent server x
           | none => server) rest
        simp only [ha]
        exact mem_followServer_of_mem ao rest _ (self_mem_addIfAbsent _ _)
      · show a ∈ followServer ao
          (match ao m with
           | some x => addIfAbsent server x
           | none => server) rest
        exact ih _ hmem

theorem syncRound_server_mem (ro : String → Option Int) (ao : Int → Option String)
    (src : List String) (d : DestAccount) {a : String} (h : a ∈ d.server) :
    a ∈ (syncRound ro ao src d).1.server := by
  simp only [syncRound]
  split
  · exact h
  · exact mem_followServer_of_mem ao _ _ h

theorem syncRound_server_of_deficit (ro : String → Option Int)
    (ao : Int → Option String) (src : List String) (d : DestAccount)
    {a : String} {n : Int} (ha : a ∈ src)
    (hnm : CommRef.actor a ∉ addActors d.client d.server)
    (hn : ro a = some n) (hnz : n ≠ 0) (hao : ao n = some a) :
    a ∈ (syncRound ro ao src d).1.server := by
  have hadef : a ∈ src.filter
      (fun x => decide (CommRef.actor x ∉ addActors d.client d.server)) :=
    List.mem_filter.mpr ⟨ha, by simp [hnm]⟩
  simp only [syncRound]
  split
  · rename_i hemp
    rw [List.isEmpty_iff.mp hemp] at hadef
    cases hadef
  · refine mem_followServer_of_call ao hao _ _ ?_
    rw [subscribe_followCalls]
    refine List.mem_filterMap.mpr ⟨a, ?_, ?_⟩
    · simpa using hadef
    · simp [truthyResolve, hn, hnz]

theorem syncRound_calls_nil (ro : String → Option Int) (ao : Int → Option String)
    (src : List String) (d : DestAccount)
    (h : ∀ a ∈ src, CommRef.actor a ∉ addActors d.client d.server → ro a = none) :
    (syncRound ro ao src d).2 = [] := by
  simp only [syncRound]
  split
  · rfl
  · rw [subscribe_followCalls]
    simp only [List.nil_append]
    rw [List.filterMap_eq_nil_iff]
    intro a hmem
    obtain ⟨ha, hdec⟩ := List.mem_filter.mp hmem
    simp [truthyResolve, h a ha (of_decide_eq_true hdec)]

/-! ## C7 — superset and idempotence of sync -/

/-- C7: under the recording-server model (resolution is a fixed table
whose ids are consistent and nonzero, follow calls succeed with 200 and
are recorded, and listings reflect the record), syncing source set `A`
into a destination with fresh client and server set `B` leaves the
destination's server set a superset of the resolvable part of `A`; and a
second identical sync issues no follow calls. -/
theorem c7_sync_superset_idempotent (resolveOf : String → Option Int)
    (actorOf : Int → Option String) (src B : List String)
    (hcons : ∀ a n, resolveOf a = some n → actorOf n = some a ∧ n ≠ 0) :
    (∀ a, a ∈ src → (resolveOf a).isSome →
        a ∈ (syncRound resolveOf actorOf src ⟨[], B⟩).1.server) ∧
      (syncRound resolveOf actorOf src
          (syncRound resolveOf actorOf src ⟨[], B⟩).1).2 = [] := by
  have hsrv1 : ∀ a, a ∈ src → (resolveOf a).isSome →
      a ∈ (syncRound resolveOf actorOf src ⟨[], B⟩).1.server := by
    intro a ha hres
    obtain ⟨n, hn⟩ := Option.isSome_iff_exists.mp hres
    obtain ⟨hao, hnz⟩ := hcons a n hn
    by_cases hmem : CommRef.actor a ∈
        addActors (⟨[], B⟩ : DestAccount).client (⟨[], B⟩ : DestAccount).server
    · have haB : a ∈ B := by
        rcases (actor_mem_addActors_iff B []).mp hmem with h | h
        · cases h
        · exact h
      exact syncRound_server_mem resolveOf actorOf src ⟨[], B⟩ haB
    · exact syncRound_server_of_deficit resolveOf actorOf src ⟨[], B⟩
        ha hmem hn hnz hao
  refine ⟨hsrv1, ?_⟩
  refine syncRound_calls_nil resolveOf actorOf src _ ?_
  intro a ha hnm
  rcases hres : resolveOf a with _ | n
  · rfl
  · exfalso
    have hin : a ∈ (syncRound resolveOf actorOf src ⟨[], B⟩).1.server :=
      hsrv1 a ha (by rw [hres]; rfl)
    exact hnm ((actor_mem_addActors_iff _ _).mpr (Or.inr hin))

/-- C7 witness: a server knowing only "x" (id 1), source `{"x"}`,
destination initially empty: after one sync "x" is subscribed on the
server, and a second sync issues no follow calls. -/
theorem c7_witness :
    "x" ∈ (syncRound resolveOnlyX actorOnlyX ["x"] ⟨[], []⟩).1.server ∧
      (syncRound resolveOnlyX actorOnlyX ["x"]
          (syncRound resolveOnlyX actorOnlyX ["x"] ⟨[], []⟩).1).2 = [] := by
  have hcons : ∀ a n, resolveOnlyX a = some n → actorOnlyX n = some a ∧ n ≠ 0 := by
    intro a n h
    unfold resolveOnlyX at h
    split at h
    · rename_i ha
      injection h with h1
      subst ha
      refine ⟨?_, ?_⟩
      · rw [← h1]
        rfl
      · omega
    · simp at h
  exact ⟨(c7_sync_superset_idempotent resolveOnlyX actorOnlyX ["x"] [] hcons).1
      "x" (by decide) (by decide),
    (c7_sync_superset_idempotent resolveOnlyX actorOnlyX ["x"] [] hcons).2⟩

/-! ## C10 — the subscription set only grows -/

/-- C10: the client's `_user_communities` set is persistent and monotone:
no operation (login, listing, resolve, subscribe) ever removes an element,
so along any operation sequence the set only grows — and since
`get_communities` returns the set itself after adding into it, each call
returns a superset of every earlier call's result. -/
theorem c10_user_communities_monotone :
    ∀ (env : Env) (ops : List Op) (c : Lemmy) (x : CommRef),
      x ∈ c.user_communities → x ∈ (applyOps env ops c).user_communities := by
  intro env ops
  induction ops with
  | nil => exact fun c x h => h
  | cons op rest ih =>
      intro c x h
      exact ih _ _ (applyOp_comms_mem env c op h)

/-- C10 witness: an element present before a (resolve) operation is still
present after it. -/
theorem c10_witness :
    CommRef.actor "a" ∈
      (applyOps ⟨fun _ => none, fun _ => none⟩ [Op.resolveOp "u"]
          ⟨"s", none, [CommRef.actor "a"]⟩).user_communities :=
  c10_user_communities_monotone ⟨fun _ => none, fun _ => none⟩ [Op.resolveOp "u"]
    ⟨"s", none, [CommRef.actor "a"]⟩ (CommRef.actor "a") (by decide)
